import Mathlib

/-!
Verification of the chunkwm tiling plugin command interpreter
(`src/plugins/tiling/controller.cpp`) against its specification.

The BSP layout tree, the rotate / mirror / ratio-adjust mutations, the
monocle list navigation, zoom toggling, the send-to-desktop guard logic,
cross-display normalization and the directional distance metric are
embedded shallowly below.  Machine floats are modelled by exact rationals
(`ℚ`) except for the trigonometric distance metric, which is modelled over
`ℝ`.  Helper functions that live in `node.cpp` / `region.cpp` (not part of
the sources under verification) are modelled from the specification and
marked as such in their doc comments.
-/

namespace Chunkwm

/-- Split orientation of a node, mirroring the `node_split` enum
(`Split_None` for leaves). -/
inductive NodeSplit where
  | Split_None
  | Split_Vertical
  | Split_Horizontal
deriving DecidableEq, Repr

open NodeSplit

/-- Axis-aligned rectangle `{X, Y, Width, Height}` as in `region`. -/
structure Region where
  X : ℚ
  Y : ℚ
  Width : ℚ
  Height : ℚ
deriving DecidableEq, Repr

/-- The BSP layout tree.  A C `node` carries `WindowId`, `Split`, `Ratio`
and `Region` fields; leaves are the nodes with null `Left`/`Right`
(`IsLeafNode`), and only leaves carry a meaningful `WindowId`. -/
inductive NTree where
  | leaf (WindowId : Nat) (Ratio : ℚ) (Split : NodeSplit) (Reg : Region)
  | node (Split : NodeSplit) (Ratio : ℚ) (Reg : Region) (L : NTree) (R : NTree)
deriving DecidableEq, Repr

/-- Ratio field of the root node of a (sub)tree. -/
def rootRatio : NTree → ℚ
  | .leaf _ r _ _ => r
  | .node _ r _ _ _ => r

/-- Split field of the root node of a (sub)tree. -/
def rootSplit : NTree → NodeSplit
  | .leaf _ _ s _ => s
  | .node s _ _ _ _ => s

/-- Region field of the root node of a (sub)tree. -/
def rootRegion : NTree → Region
  | .leaf _ _ _ g => g
  | .node _ _ g _ _ => g

/-- Guard of the child-swap branch in `RotateBSPTree`: the code swaps (and
flips the ratio) when `(Degrees == "90" && Split == Split_Vertical) ||
(Degrees == "270" && Split == Split_Horizontal) || Degrees == "180"`. -/
def rotSwapCond (Degrees : String) (s : NodeSplit) : Bool :=
  (Degrees == "90" && s == Split_Vertical) ||
  (Degrees == "270" && s == Split_Horizontal) ||
  (Degrees == "180")

/-- Split toggle performed by `RotateBSPTree` for non-180 rotations:
`Horizontal ↔ Vertical`, anything else untouched. -/
def toggleSplit : NodeSplit → NodeSplit
  | Split_Horizontal => Split_Vertical
  | Split_Vertical => Split_Horizontal
  | Split_None => Split_None

/-- Shallow embedding of `RotateBSPTree` (controller.cpp:1022).  The code
first (conditionally) swaps `Left`/`Right` and sets `Ratio = 1 - Ratio`,
then toggles the split orientation unless rotating by 180, and finally
recurses into the (already swapped) children when the node is not a
leaf. -/
def RotateBSPTree (Degrees : String) : NTree → NTree
  | .leaf w r s g =>
      .leaf w (if rotSwapCond Degrees s then 1 - r else r)
        (if Degrees == "180" then s else toggleSplit s) g
  | .node s r g l rt =>
      if rotSwapCond Degrees s then
        .node (if Degrees == "180" then s else toggleSplit s) (1 - r) g
          (RotateBSPTree Degrees rt) (RotateBSPTree Degrees l)
      else
        .node (if Degrees == "180" then s else toggleSplit s) r g
          (RotateBSPTree Degrees l) (RotateBSPTree Degrees rt)

/-- Spec-style description of the amended 90-degree rotation: swap the
children and replace `Ratio` with `1 - Ratio` on exactly the nodes whose
split is vertical (examined before the toggle), and toggle the split
orientation of every node. -/
def Rotate90Amended : NTree → NTree
  | .leaf w r s g =>
      if s = Split_Vertical then .leaf w (1 - r) (toggleSplit s) g
      else .leaf w r (toggleSplit s) g
  | .node s r g l rt =>
      if s = Split_Vertical then
        .node (toggleSplit s) (1 - r) g (Rotate90Amended rt) (Rotate90Amended l)
      else
        .node (toggleSplit s) r g (Rotate90Amended l) (Rotate90Amended rt)

/-- Spec-style description of the 180-degree rotation: swap the children
and replace `Ratio` with `1 - Ratio` at every node, preserving the split
orientation. -/
def Rotate180Spec : NTree → NTree
  | .leaf w r s g => .leaf w (1 - r) s g
  | .node s r g l rt => .node s (1 - r) g (Rotate180Spec rt) (Rotate180Spec l)

/-- Concrete tree refuting claim C1: a vertical root with ratio `3/10`. -/
def c1CexTree : NTree :=
  .node Split_Vertical (3/10) ⟨0, 0, 100, 100⟩
    (.leaf 1 (1/2) Split_None ⟨0, 0, 50, 100⟩)
    (.leaf 2 (1/2) Split_None ⟨50, 0, 50, 100⟩)

lemma rotate90_node_vertical (r : ℚ) (g : Region) (l rt : NTree) :
    RotateBSPTree "90" (.node Split_Vertical r g l rt) =
      .node Split_Horizontal (1 - r) g
        (RotateBSPTree "90" rt) (RotateBSPTree "90" l) := rfl

lemma rotate90_node_horizontal (r : ℚ) (g : Region) (l rt : NTree) :
    RotateBSPTree "90" (.node Split_Horizontal r g l rt) =
      .node Split_Vertical r g
        (RotateBSPTree "90" l) (RotateBSPTree "90" rt) := rfl

lemma rotate90_node_none (r : ℚ) (g : Region) (l rt : NTree) :
    RotateBSPTree "90" (.node Split_None r g l rt) =
      .node Split_None r g
        (RotateBSPTree "90" l) (RotateBSPTree "90" rt) := rfl

lemma rotate180_leaf (w : Nat) (r : ℚ) (s : NodeSplit) (g : Region) :
    RotateBSPTree "180" (.leaf w r s g) = .leaf w (1 - r) s g := by
  cases s <;> rfl

lemma rotate180_node (s : NodeSplit) (r : ℚ) (g : Region) (l rt : NTree) :
    RotateBSPTree "180" (.node s r g l rt) =
      .node s (1 - r) g (RotateBSPTree "180" rt) (RotateBSPTree "180" l) := by
  cases s <;> rfl

/-- C1 counterexample: rotating by 90 degrees does not leave every node's
`Ratio` unchanged — on a vertical root with ratio `3/10` the code yields
`7/10`, because the ratio flip happens inside the child-swap branch, which
fires for 90-degree rotations on vertical splits. -/
theorem c1_rotate90_changes_ratio :
    rootRatio (RotateBSPTree "90" c1CexTree) ≠ rootRatio c1CexTree := by
  show (1 - 3/10 : ℚ) ≠ 3/10
  norm_num

/-- C1 (amended): a 90-degree rotation swaps the children and replaces
`Ratio` with `1 - Ratio` on exactly the nodes whose split is vertical
(before the toggle) and toggles the split orientation of every node, while
a 180-degree rotation swaps the children and replaces `Ratio` with
`1 - Ratio` at every node, preserving the split orientation. -/
theorem c1_rotate_amended :
    (∀ t, RotateBSPTree "90" t = Rotate90Amended t) ∧
    (∀ t, RotateBSPTree "180" t = Rotate180Spec t) := by
  constructor
  · intro t
    induction t with
    | leaf w r s g => cases s <;> rfl
    | node s r g l rt ihl ihr =>
        cases s
        · rw [rotate90_node_none, ihl, ihr]; rfl
        · rw [rotate90_node_vertical, ihl, ihr]; rfl
        · rw [rotate90_node_horizontal, ihl, ihr]; rfl
  · intro t
    induction t with
    | leaf w r s g => rw [rotate180_leaf]; rfl
    | node s r g l rt ihl ihr =>
        rw [rotate180_node, ihl, ihr]; rfl

/-- C4: rotating a BSP tree by 180 degrees twice restores the original
tree exactly — children, `Split`, `Ratio` and the stored `Region` of every
node (regions are not touched by `RotateBSPTree`; `RotateWindowTree`
recomputes them deterministically from the tree, so equal trees yield
equal regions). -/
theorem c4_rotate180_involutive :
    ∀ t, RotateBSPTree "180" (RotateBSPTree "180" t) = t := by
  intro t
  induction t with
  | leaf w r s g =>
      rw [rotate180_leaf, rotate180_leaf]
      congr 1
      ring
  | node s r g l rt ihl ihr =>
      rw [rotate180_node, rotate180_node, ihl, ihr]
      congr 1
      ring

/-! ### Paths, lowest common ancestor and ratio adjustment -/

/-- Direction taken at an internal node when descending into a subtree. -/
inductive Side where
  | L
  | R
deriving DecidableEq, Repr

/-- Child of a node in the given direction (none at a leaf). -/
def childAt : NTree → Side → Option NTree
  | .leaf _ _ _ _, _ => none
  | .node _ _ _ l _, .L => some l
  | .node _ _ _ _ r, .R => some r

/-- Subtree reached by following a path from the root. -/
def subtreeAt : NTree → List Side → Option NTree
  | t, [] => some t
  | t, d :: p =>
    match childAt t d with
    | none => none
    | some c => subtreeAt c p

/-- Ratio of the node at a path. -/
def RatioAt (t : NTree) (p : List Side) : Option ℚ :=
  (subtreeAt t p).map rootRatio

/-- Region of the node at a path. -/
def RegionAt (t : NTree) (p : List Side) : Option Region :=
  (subtreeAt t p).map rootRegion

/-- Modelled from the spec: `GetLowestCommonAncestor` is defined in
`node.cpp`, which is not among the sources under verification; the spec
exposes `LowestCommonAncestor(a, b)` over BSP trees.  For nodes identified
by their paths from the root, the LCA is the longest common stem of the
two paths. -/
def commonStem : List Side → List Side → List Side
  | a :: as, b :: bs => if a = b then a :: commonStem as bs else []
  | _, _ => []

/-- Modelled from the spec: `IsNodeInTree(Root, Node)` (`IsInSubtree` in
the spec) is defined in `node.cpp`, which is not among the sources under
verification; it holds when `Node` lies in the subtree rooted at `Root`.
On paths this is the initial-segment test. -/
def pathInSubtree : List Side → List Side → Bool
  | [], _ => true
  | _ :: _, [] => false
  | a :: as, b :: bs => a == b && pathInSubtree as bs

/-- Candidate ratio computed by `AdjustWindowRatio` (controller.cpp:1171):
the offset starts as the configured step and is negated unless
`WindowNode == Ancestor->Left || IsNodeInTree(Ancestor->Left, WindowNode)`;
the candidate is `Ancestor->Ratio + Offset`. -/
def AdjustCandidate (t : NTree) (pS pT : List Side) (step : ℚ) : Option ℚ :=
  match RatioAt t (commonStem pS pT) with
  | none => none
  | some r =>
    some (r + (if pS = commonStem pS pT ++ [Side.L] ∨
                  pathInSubtree (commonStem pS pT ++ [Side.L]) pS then step
               else -step))

/-- Candidate ratio as claim C2 words it: `A.Ratio` minus the step when
the source lies in the LCA's left subtree (or is `A.Left`), plus the step
otherwise. -/
def AdjustCandidateClaimed (t : NTree) (pS pT : List Side) (step : ℚ) :
    Option ℚ :=
  match RatioAt t (commonStem pS pT) with
  | none => none
  | some r =>
    some (r + (if pS = commonStem pS pT ++ [Side.L] ∨
                  pathInSubtree (commonStem pS pT ++ [Side.L]) pS then -step
               else step))

/-- Two side-by-side leaves under a vertical root with ratio `1/2`. -/
def c2Tree : NTree :=
  .node Split_Vertical (1/2) ⟨0, 0, 100, 100⟩
    (.leaf 1 (1/2) Split_None ⟨0, 0, 50, 100⟩)
    (.leaf 2 (1/2) Split_None ⟨50, 0, 50, 100⟩)

/-- C2 counterexample: when the source is the LCA's left child the code
adds the step (`1/2 + 1/10`), while the claim says it is subtracted; the
two disagree on a two-leaf tree. -/
theorem c2_candidate_sign_cex :
    AdjustCandidate c2Tree [Side.L] [Side.R] (1/10) ≠
      AdjustCandidateClaimed c2Tree [Side.L] [Side.R] (1/10) := by
  have h1 : AdjustCandidate c2Tree [Side.L] [Side.R] (1/10) =
      some (1/2 + 1/10 : ℚ) := rfl
  have h2 : AdjustCandidateClaimed c2Tree [Side.L] [Side.R] (1/10) =
      some (1/2 + -(1/10) : ℚ) := rfl
  rw [h1, h2]
  simp only [Ne, Option.some.injEq]
  norm_num

lemma commonStem_initial : ∀ p q : List Side, pathInSubtree (commonStem p q) p = true := by
  intro p
  induction p with
  | nil => intro q; cases q <;> rfl
  | cons a as ih =>
      intro q
      cases q with
      | nil => rfl
      | cons b bs =>
          by_cases hab : a = b
          · subst hab
            simp [commonStem, pathInSubtree, ih bs]
          · simp [commonStem, hab, pathInSubtree]

lemma leftChild_cond_iff : ∀ (A p : List Side), pathInSubtree A p = true →
    ((p = A ++ [Side.L] ∨ pathInSubtree (A ++ [Side.L]) p = true) ↔
      p.get? A.length = some Side.L) := by
  intro A
  induction A with
  | nil =>
      intro p _
      cases p with
      | nil => simp [pathInSubtree]
      | cons c cs =>
          cases c with
          | L => simp [pathInSubtree]
          | R => simp [pathInSubtree]
  | cons a as ih =>
      intro p hp
      cases p with
      | nil => exact absurd hp (by simp [pathInSubtree])
      | cons b bs =>
          have hab : a = b ∧ pathInSubtree as bs = true := by
            simpa [pathInSubtree] using hp
          obtain ⟨rfl, hbs⟩ := hab
          have := ih bs hbs
          simpa [pathInSubtree] using this

/-- C2 (amended): the candidate ratio is the LCA's `Ratio` *plus* the
configured step when the source lies in the LCA's left subtree (or is the
LCA's left child), and the LCA's `Ratio` *minus* the step otherwise. -/
theorem c2_candidate_sign_amended (t : NTree) (pS pT : List Side)
    (step r : ℚ) (h : RatioAt t (commonStem pS pT) = some r) :
    AdjustCandidate t pS pT step =
      some (r + (if pS.get? (commonStem pS pT).length = some Side.L
                 then step else -step)) := by
  have hiff := leftChild_cond_iff (commonStem pS pT) pS (commonStem_initial pS pT)
  unfold AdjustCandidate
  rw [h]
  by_cases hc : pS.get? (commonStem pS pT).length = some Side.L
  · rw [if_pos (hiff.mpr hc), if_pos hc]
  · rw [if_neg (fun hor => hc (hiff.mp hor)), if_neg hc]

/-- Witness for `c2_candidate_sign_amended` at the two-leaf tree. -/
theorem c2_candidate_sign_amended_witness :
    RatioAt c2Tree (commonStem [Side.L] [Side.R]) = some (1/2) ∧
    AdjustCandidate c2Tree [Side.L] [Side.R] (1/10) =
      some (1/2 +
        (if ([Side.L] : List Side).get? (commonStem [Side.L] [Side.R]).length =
            some Side.L then (1/10 : ℚ) else -(1/10))) :=
  ⟨rfl, c2_candidate_sign_amended c2Tree [Side.L] [Side.R] (1/10) (1/2) rfl⟩

/-- Set the ratio of the node at a path (tree unchanged if the path is
invalid). -/
def SetRatioAt : NTree → List Side → ℚ → NTree
  | .leaf w _ s g, [], x => .leaf w x s g
  | .node s _ g l r, [], x => .node s x g l r
  | .leaf w r s g, _ :: _, _ => .leaf w r s g
  | .node s r g l rt, .L :: p, x => .node s r g (SetRatioAt l p x) rt
  | .node s r g l rt, .R :: p, x => .node s r g l (SetRatioAt rt p x)

/-- Shallow embedding of the mutation step of `AdjustWindowRatio`
(controller.cpp:1176): the candidate ratio is stored (and regions under
the LCA recomputed and applied — the returned flag) only when it lies in
`[0.1, 0.9]`; otherwise the tree is untouched. -/
def AdjustWindowRatio (t : NTree) (pS pT : List Side) (step : ℚ) :
    NTree × Bool :=
  match AdjustCandidate t pS pT step with
  | none => (t, false)
  | some r' =>
    if 1/10 ≤ r' ∧ r' ≤ 9/10 then
      (SetRatioAt t (commonStem pS pT) r', true)
    else (t, false)

/-- Every node's ratio (leaves included) lies in `[0.1, 0.9]`. -/
def ratiosBounded : NTree → Bool
  | .leaf _ r _ _ => decide (1/10 ≤ r ∧ r ≤ 9/10)
  | .node _ r _ l rt =>
      decide (1/10 ≤ r ∧ r ≤ 9/10) && ratiosBounded l && ratiosBounded rt

lemma ratiosBounded_leaf (w : Nat) (r : ℚ) (s : NodeSplit) (g : Region) :
    ratiosBounded (.leaf w r s g) = true ↔ (1/10 ≤ r ∧ r ≤ 9/10) := by
  simp [ratiosBounded]

lemma ratiosBounded_node (s : NodeSplit) (r : ℚ) (g : Region) (l rt : NTree) :
    ratiosBounded (.node s r g l rt) = true ↔
      (1/10 ≤ r ∧ r ≤ 9/10) ∧ ratiosBounded l = true ∧
        ratiosBounded rt = true := by
  simp [ratiosBounded, and_assoc]

lemma ratiosBounded_setRatioAt : ∀ (t : NTree) (p : List Side) (x : ℚ),
    ratiosBounded t = true → (1/10 ≤ x ∧ x ≤ 9/10) →
    ratiosBounded (SetRatioAt t p x) = true := by
  intro t
  induction t with
  | leaf w r s g =>
      intro p x ht hx
      cases p with
      | nil => exact (ratiosBounded_leaf w x s g).mpr hx
      | cons d p' => exact ht
  | node s r g l rt ihl ihr =>
      intro p x ht hx
      rw [ratiosBounded_node] at ht
      cases p with
      | nil => exact (ratiosBounded_node s x g l rt).mpr ⟨hx, ht.2.1, ht.2.2⟩
      | cons d p' =>
          cases d with
          | L =>
              exact (ratiosBounded_node s r g (SetRatioAt l p' x) rt).mpr
                ⟨ht.1, ihl p' x ht.2.1 hx, ht.2.2⟩
          | R =>
              exact (ratiosBounded_node s r g l (SetRatioAt rt p' x)).mpr
                ⟨ht.1, ht.2.1, ihr p' x ht.2.2 hx⟩

/-- C3: if the adjusted ratio falls outside `[0.1, 0.9]` the command is a
silent no-op (the tree is returned untouched and no region is recomputed
or applied — the `false` flag); otherwise the LCA's ratio becomes the
adjusted value (and regions under the LCA are recomputed — the `true`
flag).  In either case, if every node's ratio was in bounds before, it
still is afterwards. -/
theorem c3_adjust_ratio_bounds (t : NTree) (pS pT : List Side) (step : ℚ) :
    (∀ r', AdjustCandidate t pS pT step = some r' →
      ¬(1/10 ≤ r' ∧ r' ≤ 9/10) →
      AdjustWindowRatio t pS pT step = (t, false)) ∧
    (∀ r', AdjustCandidate t pS pT step = some r' →
      (1/10 ≤ r' ∧ r' ≤ 9/10) →
      AdjustWindowRatio t pS pT step =
        (SetRatioAt t (commonStem pS pT) r', true)) ∧
    (ratiosBounded t = true →
      ratiosBounded (AdjustWindowRatio t pS pT step).1 = true) := by
  refine ⟨?_, ?_, ?_⟩
  · intro r' hr hout
    simp only [AdjustWindowRatio, hr]
    rw [if_neg hout]
  · intro r' hr hin
    simp only [AdjustWindowRatio, hr]
    rw [if_pos hin]
  · intro ht
    cases hr : AdjustCandidate t pS pT step with
    | none => simp only [AdjustWindowRatio, hr]; exact ht
    | some r' =>
        by_cases hin : 1/10 ≤ r' ∧ r' ≤ 9/10
        · simp only [AdjustWindowRatio, hr]
          rw [if_pos hin]
          exact ratiosBounded_setRatioAt t (commonStem pS pT) r' ht hin
        · simp only [AdjustWindowRatio, hr]
          rw [if_neg hin]
          exact ht

/-- Witness for `c3_adjust_ratio_bounds`: with step `1/2` the candidate
`1` is refused (no-op), with step `1/10` the candidate `3/5` is stored. -/
theorem c3_adjust_ratio_bounds_witness :
    AdjustWindowRatio c2Tree [Side.L] [Side.R] (1/2) = (c2Tree, false) ∧
    AdjustWindowRatio c2Tree [Side.L] [Side.R] (1/10) =
      (SetRatioAt c2Tree (commonStem [Side.L] [Side.R]) (1/2 + 1/10), true) ∧
    ratiosBounded (AdjustWindowRatio c2Tree [Side.L] [Side.R] (1/10)).1 = true := by
  refine ⟨?_, ?_, ?_⟩
  · exact (c3_adjust_ratio_bounds c2Tree [Side.L] [Side.R] (1/2)).1
      (1/2 + 1/2) rfl (by norm_num)
  · exact (c3_adjust_ratio_bounds c2Tree [Side.L] [Side.R] (1/10)).2.1
      (1/2 + 1/10) rfl (by norm_num)
  · exact (c3_adjust_ratio_bounds c2Tree [Side.L] [Side.R] (1/10)).2.2
      (by norm_num [c2Tree, ratiosBounded])

/-! ### Window swap (BSP) -/

/-- WindowId of the leaf at a path (none for internal nodes or invalid
paths; internal nodes carry `WindowId = 0` in the C struct). -/
def WidAt (t : NTree) (p : List Side) : Option Nat :=
  match subtreeAt t p with
  | some (.leaf w _ _ _) => some w
  | _ => none

/-- Replace the `WindowId` of the leaf at a path (tree unchanged when the
path does not reach a leaf). -/
def SetWidAt : NTree → List Side → Nat → NTree
  | .leaf _ r s g, [], w => .leaf w r s g
  | .node s r g l rt, [], _ => .node s r g l rt
  | .leaf w r s g, _ :: _, _ => .leaf w r s g
  | .node s r g l rt, .L :: p, w => .node s r g (SetWidAt l p w) rt
  | .node s r g l rt, .R :: p, w => .node s r g l (SetWidAt rt p w)

/-- Apply a function to every leaf's `WindowId`; `MapWid (fun _ => 0)`
erases the window binding and exposes the tree's skeleton (shape, `Split`,
`Ratio`, `Region`). -/
def MapWid (f : Nat → Nat) : NTree → NTree
  | .leaf w r s g => .leaf (f w) r s g
  | .node s r g l rt => .node s r g (MapWid f l) (MapWid f rt)

/-- Modelled from the spec: `SwapNodeIds(a, b)` is defined in `node.cpp`,
which is not among the sources under verification; the spec says it
exchanges `WindowId` between two leaves, not their subtree positions. -/
def SwapNodeIds (t : NTree) (pa pb : List Side) : NTree :=
  match WidAt t pa, WidAt t pb with
  | some wa, some wb => SetWidAt (SetWidAt t pa wb) pb wa
  | _, _ => t

/-- BSP branch of `SwapWindow` (controller.cpp:460): after `SwapNodeIds`,
`ResizeWindowToRegionSize` is called on both nodes, resizing each node's
(newly bound) window to the node's region.  The effect list records the
`(window id, region)` pairs handed to the accessibility bridge. -/
def SwapWindowBsp (t : NTree) (pa pb : List Side) :
    NTree × List (Option Nat × Option Region) :=
  (SwapNodeIds t pa pb,
   [(WidAt (SwapNodeIds t pa pb) pa, RegionAt (SwapNodeIds t pa pb) pa),
    (WidAt (SwapNodeIds t pa pb) pb, RegionAt (SwapNodeIds t pa pb) pb)])

lemma mapWid_setWidAt : ∀ (t : NTree) (p : List Side) (w : Nat),
    MapWid (fun _ => 0) (SetWidAt t p w) = MapWid (fun _ => 0) t := by
  intro t
  induction t with
  | leaf w0 r s g =>
      intro p w
      cases p with
      | nil => rfl
      | cons d p' => rfl
  | node s r g l rt ihl ihr =>
      intro p w
      cases p with
      | nil => rfl
      | cons d p' =>
          cases d with
          | L => simp [SetWidAt, MapWid, ihl]
          | R => simp [SetWidAt, MapWid, ihr]

lemma widAt_node_L (s : NodeSplit) (r : ℚ) (g : Region) (l rt : NTree)
    (p : List Side) : WidAt (.node s r g l rt) (.L :: p) = WidAt l p := rfl

lemma widAt_node_R (s : NodeSplit) (r : ℚ) (g : Region) (l rt : NTree)
    (p : List Side) : WidAt (.node s r g l rt) (.R :: p) = WidAt rt p := rfl

lemma widAt_setWidAt_self : ∀ (t : NTree) (p : List Side) (a w : Nat),
    WidAt t p = some a → WidAt (SetWidAt t p w) p = some w := by
  intro t
  induction t with
  | leaf w0 r s g =>
      intro p a w h
      cases p with
      | nil => rfl
      | cons d p' => exact absurd h (by simp [WidAt, subtreeAt, childAt])
  | node s r g l rt ihl ihr =>
      intro p a w h
      cases p with
      | nil => exact absurd h (by simp [WidAt, subtreeAt])
      | cons d p' =>
          cases d with
          | L =>
              rw [widAt_node_L] at h
              show WidAt (SetWidAt l p' w) p' = some w
              exact ihl p' a w h
          | R =>
              rw [widAt_node_R] at h
              show WidAt (SetWidAt rt p' w) p' = some w
              exact ihr p' a w h

lemma widAt_setWidAt_other : ∀ (t : NTree) (p q : List Side) (w : Nat),
    p ≠ q → WidAt (SetWidAt t q w) p = WidAt t p := by
  intro t
  induction t with
  | leaf w0 r s g =>
      intro p q w hpq
      cases q with
      | nil =>
          cases p with
          | nil => exact absurd rfl hpq
          | cons d p' => rfl
      | cons d q' => rfl
  | node s r g l rt ihl ihr =>
      intro p q w hpq
      cases q with
      | nil => rfl
      | cons d q' =>
          cases d with
          | L =>
              cases p with
              | nil => rfl
              | cons e p' =>
                  cases e with
                  | L =>
                      have : p' ≠ q' := by
                        intro h; exact hpq (by rw [h])
                      show WidAt (SetWidAt l q' w) p' = WidAt l p'
                      exact ihl p' q' w this
                  | R => rfl
          | R =>
              cases p with
              | nil => rfl
              | cons e p' =>
                  cases e with
                  | L => rfl
                  | R =>
                      have : p' ≠ q' := by
                        intro h; exact hpq (by rw [h])
                      show WidAt (SetWidAt rt q' w) p' = WidAt rt p'
                      exact ihr p' q' w this

lemma regionAt_setWidAt : ∀ (t : NTree) (p q : List Side) (w : Nat),
    RegionAt (SetWidAt t q w) p = RegionAt t p := by
  intro t
  induction t with
  | leaf w0 r s g =>
      intro p q w
      cases q with
      | nil => cases p with
        | nil => rfl
        | cons d p' => rfl
      | cons d q' => rfl
  | node s r g l rt ihl ihr =>
      intro p q w
      cases q with
      | nil => rfl
      | cons d q' =>
          cases d with
          | L =>
              cases p with
              | nil => rfl
              | cons e p' =>
                  cases e with
                  | L =>
                      show RegionAt (SetWidAt l q' w) p' = RegionAt l p'
                      exact ihl p' q' w
                  | R => rfl
          | R =>
              cases p with
              | nil => rfl
              | cons e p' =>
                  cases e with
                  | L => rfl
                  | R =>
                      show RegionAt (SetWidAt rt q' w) p' = RegionAt rt p'
                      exact ihr p' q' w

/-- C5: in BSP mode a swap only exchanges the `WindowId` fields of the two
nodes — the skeleton (shape, `Split`, `Ratio`, `Region` of every node) is
unchanged, every other leaf keeps its window, and the two resize effects
send each window to the unchanged region of its new node. -/
theorem c5_swap_window_frame (t : NTree) (pa pb : List Side) (a b : Nat)
    (ha : WidAt t pa = some a) (hb : WidAt t pb = some b) :
    MapWid (fun _ => 0) (SwapWindowBsp t pa pb).1 = MapWid (fun _ => 0) t ∧
    WidAt (SwapWindowBsp t pa pb).1 pa = some b ∧
    WidAt (SwapWindowBsp t pa pb).1 pb = some a ∧
    (∀ p, p ≠ pa → p ≠ pb → WidAt (SwapWindowBsp t pa pb).1 p = WidAt t p) ∧
    (SwapWindowBsp t pa pb).2 =
      [(some b, RegionAt t pa), (some a, RegionAt t pb)] := by
  have ht' : SwapNodeIds t pa pb = SetWidAt (SetWidAt t pa b) pb a := by
    unfold SwapNodeIds
    rw [ha, hb]
  have hfst : (SwapWindowBsp t pa pb).1 = SetWidAt (SetWidAt t pa b) pb a := by
    simp only [SwapWindowBsp, ht']
  have hwa : WidAt (SetWidAt (SetWidAt t pa b) pb a) pa = some b := by
    by_cases hab : pa = pb
    · subst hab
      have hone : WidAt (SetWidAt t pa b) pa = some b :=
        widAt_setWidAt_self t pa a b ha
      have htwo : WidAt (SetWidAt (SetWidAt t pa b) pa a) pa = some a :=
        widAt_setWidAt_self (SetWidAt t pa b) pa b a hone
      have hba : a = b := by
        have := ha.symm.trans hb
        exact Option.some.inj this
      rw [htwo, hba]
    · rw [widAt_setWidAt_other (SetWidAt t pa b) pa pb a hab]
      exact widAt_setWidAt_self t pa a b ha
  have hwb : WidAt (SetWidAt (SetWidAt t pa b) pb a) pb = some a := by
    by_cases hab : pa = pb
    · subst hab
      exact widAt_setWidAt_self (SetWidAt t pa b) pa b a
        (widAt_setWidAt_self t pa a b ha)
    · have hmid : WidAt (SetWidAt t pa b) pb = some b := by
        rw [widAt_setWidAt_other t pb pa b (fun h => hab h.symm)]
        exact hb
      exact widAt_setWidAt_self (SetWidAt t pa b) pb b a hmid
  refine ⟨?_, ?_, ?_, ?_, ?_⟩
  · rw [hfst, mapWid_setWidAt, mapWid_setWidAt]
  · rw [hfst]; exact hwa
  · rw [hfst]; exact hwb
  · intro p hpa hpb
    rw [hfst, widAt_setWidAt_other _ p pb a hpb,
      widAt_setWidAt_other t p pa b hpa]
  · simp only [SwapWindowBsp, ht']
    rw [hwa, hwb, regionAt_setWidAt, regionAt_setWidAt,
      regionAt_setWidAt, regionAt_setWidAt]

/-- Witness for `c5_swap_window_frame` on the two-leaf tree. -/
theorem c5_swap_window_frame_witness :
    WidAt c2Tree [Side.L] = some 1 ∧ WidAt c2Tree [Side.R] = some 2 ∧
    WidAt (SwapWindowBsp c2Tree [Side.L] [Side.R]).1 [Side.L] = some 2 ∧
    (SwapWindowBsp c2Tree [Side.L] [Side.R]).2 =
      [(some 2, RegionAt c2Tree [Side.L]), (some 1, RegionAt c2Tree [Side.R])] :=
  ⟨rfl, rfl,
   (c5_swap_window_frame c2Tree [Side.L] [Side.R] 1 2 rfl rfl).2.1,
   (c5_swap_window_frame c2Tree [Side.L] [Side.R] 1 2 rfl rfl).2.2.2.2⟩

/-! ### Zoom toggling

The `Zoom` field of a C `node` is a pointer, set on the root by
fullscreen-zoom (`VirtualSpace->Tree->Zoom`) and on a node's parent by
parent-zoom (`Node->Parent->Zoom`).  Nodes are identified by ids; the
mutable `Zoom` fields form a finite map from node id to zoomed node id
(absent entry = `NULL`).  Note the root's field is shared between the two
uses, exactly as in the C structs. -/

/-- Tree shape with node identities, for the zoom commands (zoom toggles
never change the shape). -/
inductive ZTree where
  | leafZ (id : Nat)
  | nodeZ (id : Nat) (l r : ZTree)
deriving DecidableEq, Repr

/-- Identity of the root node. -/
def idOfZ : ZTree → Nat
  | .leafZ i => i
  | .nodeZ i _ _ => i

/-- Membership of a node id in the tree. -/
def containsZ : ZTree → Nat → Bool
  | .leafZ i, n => i == n
  | .nodeZ i l r, n => i == n || containsZ l n || containsZ r n

/-- Identity of the parent of the node with the given id (none for the
root or an absent id). -/
def parentIdOf : ZTree → Nat → Option Nat
  | .leafZ _, _ => none
  | .nodeZ i l r, n =>
    if idOfZ l = n ∨ idOfZ r = n then some i
    else
      match parentIdOf l n with
      | some p => some p
      | none => parentIdOf r n

/-- Zoom field assignment: association list from node id to the id of the
node its `Zoom` pointer designates. -/
def zlookup : List (Nat × Nat) → Nat → Option Nat
  | [], _ => none
  | (k, v) :: rest, n => if k = n then some v else zlookup rest n

/-- Clear a node's `Zoom` field. -/
def zerase : List (Nat × Nat) → Nat → List (Nat × Nat)
  | [], _ => []
  | (k, v) :: rest, n => if k = n then zerase rest n else (k, v) :: zerase rest n

/-- Set a node's `Zoom` field. -/
def zset (s : List (Nat × Nat)) (k v : Nat) : List (Nat × Nat) :=
  (k, v) :: zerase s k

/-- Shallow embedding of `ToggleWindowFullscreenZoom` (controller.cpp:767):
if the node is already fullscreen-zoomed clear the root's `Zoom`;
otherwise clear a competing parent-zoom on this node's parent, then point
the root's `Zoom` at the node. -/
def ToggleWindowFullscreenZoom (t : ZTree) (s : List (Nat × Nat)) (n : Nat) :
    List (Nat × Nat) :=
  if containsZ t n = false then s
  else if zlookup s (idOfZ t) = some n then zerase s (idOfZ t)
  else
    zset (match parentIdOf t n with
          | some p => if zlookup s p = some n then zerase s p else s
          | none => s) (idOfZ t) n

/-- Shallow embedding of `ToggleWindowParentZoom` (controller.cpp:827): a
node without a parent is ignored; if the node is already parent-zoomed
clear the parent's `Zoom`; otherwise clear a competing fullscreen-zoom on
this node, then point the parent's `Zoom` at the node. -/
def ToggleWindowParentZoom (t : ZTree) (s : List (Nat × Nat)) (n : Nat) :
    List (Nat × Nat) :=
  if containsZ t n = false then s
  else
    match parentIdOf t n with
    | none => s
    | some p =>
      if zlookup s p = some n then zerase s p
      else
        zset (if zlookup s (idOfZ t) = some n then zerase s (idOfZ t) else s)
          p n

/-- A zoom command: toggle fullscreen-zoom or parent-zoom on a node. -/
inductive ZoomCmd where
  | fs (n : Nat)
  | pz (n : Nat)
deriving DecidableEq, Repr

/-- One command step. -/
def stepZoom (t : ZTree) (s : List (Nat × Nat)) : ZoomCmd → List (Nat × Nat)
  | .fs n => ToggleWindowFullscreenZoom t s n
  | .pz n => ToggleWindowParentZoom t s n

/-- Run a sequence of zoom commands. -/
def runZoom (t : ZTree) : List ZoomCmd → List (Nat × Nat) → List (Nat × Nat)
  | [], s => s
  | c :: cs, s => runZoom t cs (stepZoom t s c)

/-- Claim C6's invariant, verbatim: at most one fullscreen-zoomed node,
and no node is simultaneously fullscreen-zoomed and parent-zoomed. -/
def ZoomInvClaimed (t : ZTree) (s : List (Nat × Nat)) : Prop :=
  (∀ n m, zlookup s (idOfZ t) = some n → zlookup s (idOfZ t) = some m →
    n = m) ∧
  (∀ n p, parentIdOf t n = some p →
    ¬(zlookup s (idOfZ t) = some n ∧ zlookup s p = some n))

/-- Amended second conjunct: the mutual-exclusion only holds for nodes
whose parent is not the root, because for a direct child of the root the
two `Zoom` fields are one and the same. -/
def ZoomInvAmended (t : ZTree) (s : List (Nat × Nat)) : Prop :=
  ∀ n p, parentIdOf t n = some p → p ≠ idOfZ t →
    ¬(zlookup s (idOfZ t) = some n ∧ zlookup s p = some n)

lemma zlookup_zerase : ∀ (s : List (Nat × Nat)) (k n : Nat),
    zlookup (zerase s k) n = if k = n then none else zlookup s n := by
  intro s
  induction s with
  | nil => intro k n; simp [zerase, zlookup]
  | cons kv rest ih =>
      intro k n
      obtain ⟨a, b⟩ := kv
      by_cases hak : a = k
      · subst hak
        rw [show zerase ((a, b) :: rest) a = zerase rest a from by
          simp [zerase], ih]
        by_cases han : a = n
        · subst han; simp
        · simp [zlookup, han]
      · rw [show zerase ((a, b) :: rest) k = (a, b) :: zerase rest k from by
          simp [zerase, hak]]
        by_cases han : a = n
        · subst han
          have hka : k ≠ a := fun h => hak h.symm
          simp [zlookup, hka]
        · simp [zlookup, han, ih]

lemma zlookup_zset (s : List (Nat × Nat)) (k v n : Nat) :
    zlookup (zset s k v) n = if k = n then some v else zlookup s n := by
  unfold zset
  by_cases hkn : k = n
  · subst hkn; simp [zlookup]
  · simp [zlookup, hkn, zlookup_zerase]

lemma fs_preserves_amended (t : ZTree) (s : List (Nat × Nat)) (n₀ : Nat)
    (h : ZoomInvAmended t s) :
    ZoomInvAmended t (ToggleWindowFullscreenZoom t s n₀) := by
  unfold ToggleWindowFullscreenZoom
  by_cases hc : containsZ t n₀ = false
  · rw [if_pos hc]; exact h
  rw [if_neg hc]
  by_cases hz : zlookup s (idOfZ t) = some n₀
  · rw [if_pos hz]
    intro n p _ _ hboth
    have := hboth.1
    rw [zlookup_zerase, if_pos rfl] at this
    exact Option.noConfusion this
  · rw [if_neg hz]
    cases hpp : parentIdOf t n₀ with
    | none =>
        show ZoomInvAmended t (zset s (idOfZ t) n₀)
        intro n p hpar hne hboth
        have h1 := hboth.1
        rw [zlookup_zset, if_pos rfl] at h1
        have hn : n = n₀ := (Option.some.inj h1).symm
        subst hn
        rw [hpp] at hpar
        exact Option.noConfusion hpar
    | some p₀ =>
        show ZoomInvAmended t
          (zset (if zlookup s p₀ = some n₀ then zerase s p₀ else s)
            (idOfZ t) n₀)
        by_cases hq : zlookup s p₀ = some n₀
        · rw [if_pos hq]
          intro n p hpar hne hboth
          have h1 := hboth.1
          rw [zlookup_zset, if_pos rfl] at h1
          have hn : n = n₀ := (Option.some.inj h1).symm
          subst hn
          rw [hpp] at hpar
          have hpp₀ : p = p₀ := (Option.some.inj hpar).symm
          subst hpp₀
          have h2 := hboth.2
          rw [zlookup_zset, if_neg (fun hh => hne hh.symm),
            zlookup_zerase, if_pos rfl] at h2
          exact Option.noConfusion h2
        · rw [if_neg hq]
          intro n p hpar hne hboth
          have h1 := hboth.1
          rw [zlookup_zset, if_pos rfl] at h1
          have hn : n = n₀ := (Option.some.inj h1).symm
          subst hn
          rw [hpp] at hpar
          have hpp₀ : p = p₀ := (Option.some.inj hpar).symm
          subst hpp₀
          have h2 := hboth.2
          rw [zlookup_zset, if_neg (fun hh => hne hh.symm)] at h2
          exact hq h2

lemma pz_preserves_amended (t : ZTree) (s : List (Nat × Nat)) (n₀ : Nat)
    (h : ZoomInvAmended t s) :
    ZoomInvAmended t (ToggleWindowParentZoom t s n₀) := by
  unfold ToggleWindowParentZoom
  by_cases hc : containsZ t n₀ = false
  · rw [if_pos hc]; exact h
  rw [if_neg hc]
  cases hpar₀ : parentIdOf t n₀ with
  | none => exact h
  | some p₀ =>
      show ZoomInvAmended t
        (if zlookup s p₀ = some n₀ then zerase s p₀
         else
           zset (if zlookup s (idOfZ t) = some n₀ then zerase s (idOfZ t)
                 else s) p₀ n₀)
      by_cases hz : zlookup s p₀ = some n₀
      · rw [if_pos hz]
        intro n p hpar hne hboth
        have h1 := hboth.1
        have h2 := hboth.2
        rw [zlookup_zerase] at h1 h2
        by_cases hp₀r : p₀ = idOfZ t
        · rw [if_pos hp₀r] at h1
          exact Option.noConfusion h1
        · rw [if_neg hp₀r] at h1
          by_cases hp₀p : p₀ = p
          · rw [if_pos hp₀p] at h2
            exact Option.noConfusion h2
          · rw [if_neg hp₀p] at h2
            exact h n p hpar hne ⟨h1, h2⟩
      · rw [if_neg hz]
        intro n p hpar hne hboth
        have h1 := hboth.1
        have h2 := hboth.2
        rw [zlookup_zset] at h1 h2
        by_cases hp₀r : p₀ = idOfZ t
        · rw [if_pos hp₀r] at h1
          have hn : n = n₀ := (Option.some.inj h1).symm
          subst hn
          rw [hpar₀] at hpar
          have : p = p₀ := (Option.some.inj hpar).symm
          rw [this, hp₀r] at hne
          exact hne rfl
        · rw [if_neg hp₀r] at h1
          by_cases hroot : zlookup s (idOfZ t) = some n₀
          · rw [if_pos hroot, zlookup_zerase, if_pos rfl] at h1
            exact Option.noConfusion h1
          · rw [if_neg hroot] at h1
            by_cases hp₀p : p₀ = p
            · rw [if_pos hp₀p] at h2
              have hn : n = n₀ := (Option.some.inj h2).symm
              subst hn
              exact hroot h1
            · rw [if_neg hp₀p] at h2
              by_cases hrs : zlookup s (idOfZ t) = some n₀
              · exact absurd hrs hroot
              · rw [if_neg hrs] at h2
                exact h n p hpar hne ⟨h1, h2⟩

lemma runZoom_preserves_amended (t : ZTree) :
    ∀ (cmds : List ZoomCmd) (s : List (Nat × Nat)),
      ZoomInvAmended t s → ZoomInvAmended t (runZoom t cmds s) := by
  intro cmds
  induction cmds with
  | nil => intro s hs; exact hs
  | cons c cs ih =>
      intro s hs
      cases c with
      | fs n => exact ih _ (fs_preserves_amended t s n hs)
      | pz n => exact ih _ (pz_preserves_amended t s n hs)

/-- Tree for the C6 counterexample: a root (id 0) with two leaves. -/
def c6Tree : ZTree := .nodeZ 0 (.leafZ 1) (.leafZ 2)

/-- C6 counterexample: after a single `ToggleWindowFullscreenZoom` on a
direct child of the root, that node n satisfies both `Tree.Zoom = n` and
`n.Parent.Zoom = n`, because its parent *is* the root and the two `Zoom`
fields coincide.  The claimed invariant is therefore violated. -/
theorem c6_zoom_invariant_cex :
    ¬ ZoomInvClaimed c6Tree (runZoom c6Tree [ZoomCmd.fs 1] []) := by
  intro h
  exact h.2 1 0 rfl ⟨rfl, rfl⟩

/-- C6 (amended): starting from a workspace with no zoomed node, after any
sequence of fullscreen-zoom and parent-zoom toggles at most one node is
designated by the root's `Zoom` field, and no node whose parent is not the
root is simultaneously fullscreen-zoomed and parent-zoomed (for a direct
child of the root the two fields are the same memory, so the exclusion
trivially cannot hold there). -/
theorem c6_zoom_invariant_amended (t : ZTree) (cmds : List ZoomCmd) :
    (∀ n m, zlookup (runZoom t cmds []) (idOfZ t) = some n →
      zlookup (runZoom t cmds []) (idOfZ t) = some m → n = m) ∧
    ZoomInvAmended t (runZoom t cmds []) := by
  constructor
  · intro n m h1 h2
    exact Option.some.inj (h1.symm.trans h2)
  · apply runZoom_preserves_amended
    intro n p _ _ hboth
    have := hboth.1
    exact Option.noConfusion (show (none : Option Nat) = some n from this)

/-! ### Send window to desktop -/

/-- Destination operand of `SendWindowToDesktop` after the textual parse:
`"prev"`, `"next"`, an absolute id (`sscanf "%d"` succeeded), or an
unparseable operand. -/
inductive DesktopOp where
  | dPrev
  | dNext
  | dAbs (n : Nat)
  | dInvalid
deriving DecidableEq, Repr

/-- The surrounding OS state seen by `SendWindowToDesktop` on a user
space: the source desktop id and monitor, and the table of existing
desktops (`AXLibCGSSpaceIDFromDesktopID`), mapping desktop id to
`(monitor, space id)`. -/
structure DesktopWorld where
  SourceDesktopId : Nat
  SourceMonitor : Nat
  Desktops : List (Nat × Nat × Nat)

/-- Lookup of `AXLibCGSSpaceIDFromDesktopID`: monitor and space id for a
desktop id, none when the desktop does not exist. -/
def desktopLookup : List (Nat × Nat × Nat) → Nat → Option (Nat × Nat)
  | [], _ => none
  | (i, mon, sid) :: rest, d =>
    if i = d then some (mon, sid) else desktopLookup rest d

/-- Destination desktop id computed by controller.cpp:1446: `prev` and
`next` offset the source id (32-bit unsigned arithmetic), an absolute id
is used as given, and an unparseable operand yields none. -/
def opDest (w : DesktopWorld) : DesktopOp → Option Nat
  | .dPrev => some ((w.SourceDesktopId + (2^32 - 1)) % 2^32)
  | .dNext => some ((w.SourceDesktopId + 1) % 2^32)
  | .dAbs n => some (n % 2^32)
  | .dInvalid => none

/-- Externally visible actions of `SendWindowToDesktop` that mutate the
tree or move the window. -/
inductive DesktopEffect where
  | EffUntile
  | EffMoveWindow
  | EffSetWindowPos
  | EffSetWindowSize
  | EffTileOnDestination
deriving DecidableEq, Repr

/-- Shallow embedding of `SendWindowToDesktop` (controller.cpp:1394) from
the point where the source desktop of a user space is known.  Returns
`(Success, warned, effects)`: parse failure, destination equal to the
source, and nonexistent destination each warn and return false with no
effects; otherwise the window is untiled (when valid), moved, normalized
and retiled per the monitor/activity tests. -/
def SendWindowToDesktop (w : DesktopWorld) (op : DesktopOp)
    (ValidWindow DestActive : Bool) : Bool × Bool × List DesktopEffect :=
  match opDest w op with
  | none => (false, true, [])
  | some dest =>
    if dest = w.SourceDesktopId then (false, true, [])
    else
      match desktopLookup w.Desktops dest with
      | none => (false, true, [])
      | some (destMon, _) =>
        (true, false,
         (if ValidWindow then [DesktopEffect.EffUntile] else []) ++
           [DesktopEffect.EffMoveWindow] ++
           (if destMon ≠ w.SourceMonitor then
              [DesktopEffect.EffSetWindowPos, DesktopEffect.EffSetWindowSize] ++
                (if ValidWindow && DestActive then
                   [DesktopEffect.EffTileOnDestination]
                 else [])
            else []))

/-- C7: `SendWindowToDesktop` returns false, warns and performs no tree
mutation or window move whenever the operand cannot be parsed, the
destination desktop equals the source, or the destination desktop does not
exist. -/
theorem c7_send_desktop_guards (w : DesktopWorld) (ValidWindow DestActive : Bool) :
    (SendWindowToDesktop w .dInvalid ValidWindow DestActive = (false, true, [])) ∧
    (∀ op d, opDest w op = some d → d = w.SourceDesktopId →
      SendWindowToDesktop w op ValidWindow DestActive = (false, true, [])) ∧
    (∀ op d, opDest w op = some d → desktopLookup w.Desktops d = none →
      SendWindowToDesktop w op ValidWindow DestActive = (false, true, [])) := by
  refine ⟨rfl, ?_, ?_⟩
  · intro op d hop hsame
    simp only [SendWindowToDesktop, hop]
    rw [if_pos hsame]
  · intro op d hop hmiss
    simp only [SendWindowToDesktop, hop]
    by_cases hsame : d = w.SourceDesktopId
    · rw [if_pos hsame]
    · rw [if_neg hsame]
      simp only [hmiss]

/-- World with a single user desktop (id 1), as in spec scenario 5. -/
def soleDesktopWorld : DesktopWorld :=
  { SourceDesktopId := 1, SourceMonitor := 1, Desktops := [(1, 1, 100)] }

/-- Witness for `c7_send_desktop_guards`: `next` on the sole user desktop
resolves to desktop 2, which does not exist, so the command fails with a
warning and no mutation. -/
theorem c7_send_desktop_guards_witness :
    opDest soleDesktopWorld .dNext = some 2 ∧
    desktopLookup soleDesktopWorld.Desktops 2 = none ∧
    SendWindowToDesktop soleDesktopWorld .dNext true true = (false, true, []) :=
  ⟨rfl, rfl,
   (c7_send_desktop_guards soleDesktopWorld true true).2.2 .dNext 2 rfl rfl⟩

/-! ### Cross-display normalization -/

/-- Shallow embedding of `NormalizeWindowRect` (controller.cpp:1364),
with the window position/size and the two display bounds as inputs. -/
def NormalizeWindowRect (px py sw sh : ℚ) (sb db : Region) : Region :=
  { X := if sb.Width / db.Width > 1 then
           (px - sb.X) / (sb.Width / db.Width) + db.X
         else (px - sb.X) + db.X
    Y := if sb.Height / db.Height > 1 then
           (py - sb.Y) / (sb.Height / db.Height) + db.Y
         else (py - sb.Y) + db.Y
    Width := sw / (sb.Width / db.Width)
    Height := sh / (sb.Height / db.Height) }

/-- C8: `NormalizeWindowRect` computes `offsetX = x − Sb.x`,
`scaleX = Sb.w / Db.w`, returns `x' = offsetX / scaleX + Db.x` exactly
when `scaleX > 1` and `x' = offsetX + Db.x` otherwise (symmetrically for
`y`), while width and height are always divided by the scale. -/
theorem c8_normalize_window_rect (px py sw sh : ℚ) (sb db : Region) :
    (NormalizeWindowRect px py sw sh sb db).X =
      (if sb.Width / db.Width > 1 then
         (px - sb.X) / (sb.Width / db.Width) + db.X
       else (px - sb.X) + db.X) ∧
    (NormalizeWindowRect px py sw sh sb db).Y =
      (if sb.Height / db.Height > 1 then
         (py - sb.Y) / (sb.Height / db.Height) + db.Y
       else (py - sb.Y) + db.Y) ∧
    (NormalizeWindowRect px py sw sh sb db).Width = sw / (sb.Width / db.Width) ∧
    (NormalizeWindowRect px py sw sh sb db).Height = sh / (sb.Height / db.Height) :=
  ⟨rfl, rfl, rfl, rfl⟩

/-! ### Directional window distance -/

/-- Direction tokens, mirroring the `directions` enum. -/
inductive directions where
  | Dir_Unknown
  | Dir_North
  | Dir_East
  | Dir_South
  | Dir_West
deriving DecidableEq, Repr

/-- Shallow embedding of `DirectionFromString`. -/
def DirectionFromString (s : String) : directions :=
  if s = "north" then .Dir_North
  else if s = "east" then .Dir_East
  else if s = "south" then .Dir_South
  else if s = "west" then .Dir_West
  else .Dir_Unknown

/-- Mathematical `atan2(y, x)` as computed by libm, in exact real
arithmetic. -/
noncomputable def atan2 (y x : ℝ) : ℝ :=
  if 0 < x then Real.arctan (y / x)
  else if x < 0 ∧ 0 ≤ y then Real.arctan (y / x) + Real.pi
  else if x < 0 ∧ y < 0 then Real.arctan (y / x) - Real.pi
  else if x = 0 ∧ 0 < y then Real.pi / 2
  else if x = 0 ∧ y < 0 then -(Real.pi / 2)
  else 0

/-- Shallow embedding of `GetWindowDistance` (controller.cpp:101) with
`Wrap = false` (the BSP call sites pass `false`; wrapping only pre-adjusts
one endpoint).  `hypot` is `√(ΔX² + ΔY²)`; the sentinel is the value
`0xFFFFFFFF` the C code returns for rejected candidates. -/
noncomputable def GetWindowDistance (Op : String) (X1 Y1 X2 Y2 : ℝ) : ℝ :=
  let DeltaX := X2 - X1
  let DeltaY := Y2 - Y1
  let Angle := atan2 DeltaY DeltaX
  let Dist := Real.sqrt (DeltaX ^ 2 + DeltaY ^ 2)
  match DirectionFromString Op with
  | .Dir_North =>
      if 0 ≤ DeltaY then 4294967295
      else Dist / Real.cos ((-(Real.pi / 2) - Angle) / 2)
  | .Dir_East =>
      if DeltaX ≤ 0 then 4294967295
      else Dist / Real.cos ((0 - Angle) / 2)
  | .Dir_South =>
      if DeltaY ≤ 0 then 4294967295
      else Dist / Real.cos ((Real.pi / 2 - Angle) / 2)
  | .Dir_West =>
      if 0 ≤ DeltaX then 4294967295
      else Dist / Real.cos ((Real.pi - |Angle|) / 2)
  | .Dir_Unknown => Dist / Real.cos (0 / 2)

/-- C9: for every pair of centers, the north distance is the sentinel
exactly when `ΔY ≥ 0` and `√(ΔX² + ΔY²) / cos(α/2)` with
`α = −π/2 − atan2(ΔY, ΔX)` otherwise; east rejects `ΔX ≤ 0` with
`α = −atan2`, south rejects `ΔY ≤ 0` with `α = π/2 − atan2`, and west
rejects `ΔX ≥ 0` with `α = π − |atan2|`. -/
theorem c9_window_distance (X1 Y1 X2 Y2 : ℝ) :
    ((0 ≤ Y2 - Y1 → GetWindowDistance "north" X1 Y1 X2 Y2 = 4294967295) ∧
     (Y2 - Y1 < 0 → GetWindowDistance "north" X1 Y1 X2 Y2 =
        Real.sqrt ((X2 - X1) ^ 2 + (Y2 - Y1) ^ 2) /
          Real.cos ((-(Real.pi / 2) - atan2 (Y2 - Y1) (X2 - X1)) / 2))) ∧
    ((X2 - X1 ≤ 0 → GetWindowDistance "east" X1 Y1 X2 Y2 = 4294967295) ∧
     (0 < X2 - X1 → GetWindowDistance "east" X1 Y1 X2 Y2 =
        Real.sqrt ((X2 - X1) ^ 2 + (Y2 - Y1) ^ 2) /
          Real.cos ((0 - atan2 (Y2 - Y1) (X2 - X1)) / 2))) ∧
    ((Y2 - Y1 ≤ 0 → GetWindowDistance "south" X1 Y1 X2 Y2 = 4294967295) ∧
     (0 < Y2 - Y1 → GetWindowDistance "south" X1 Y1 X2 Y2 =
        Real.sqrt ((X2 - X1) ^ 2 + (Y2 - Y1) ^ 2) /
          Real.cos ((Real.pi / 2 - atan2 (Y2 - Y1) (X2 - X1)) / 2))) ∧
    ((0 ≤ X2 - X1 → GetWindowDistance "west" X1 Y1 X2 Y2 = 4294967295) ∧
     (X2 - X1 < 0 → GetWindowDistance "west" X1 Y1 X2 Y2 =
        Real.sqrt ((X2 - X1) ^ 2 + (Y2 - Y1) ^ 2) /
          Real.cos ((Real.pi - |atan2 (Y2 - Y1) (X2 - X1)|) / 2))) := by
  refine ⟨⟨?_, ?_⟩, ⟨?_, ?_⟩, ⟨?_, ?_⟩, ⟨?_, ?_⟩⟩
  · intro h
    show (if 0 ≤ Y2 - Y1 then (4294967295 : ℝ)
          else Real.sqrt ((X2 - X1) ^ 2 + (Y2 - Y1) ^ 2) /
            Real.cos ((-(Real.pi / 2) - atan2 (Y2 - Y1) (X2 - X1)) / 2)) =
      4294967295
    rw [if_pos h]
  · intro h
    show (if 0 ≤ Y2 - Y1 then (4294967295 : ℝ)
          else Real.sqrt ((X2 - X1) ^ 2 + (Y2 - Y1) ^ 2) /
            Real.cos ((-(Real.pi / 2) - atan2 (Y2 - Y1) (X2 - X1)) / 2)) = _
    rw [if_neg (not_le.mpr h)]
  · intro h
    show (if X2 - X1 ≤ 0 then (4294967295 : ℝ)
          else Real.sqrt ((X2 - X1) ^ 2 + (Y2 - Y1) ^ 2) /
            Real.cos ((0 - atan2 (Y2 - Y1) (X2 - X1)) / 2)) = 4294967295
    rw [if_pos h]
  · intro h
    show (if X2 - X1 ≤ 0 then (4294967295 : ℝ)
          else Real.sqrt ((X2 - X1) ^ 2 + (Y2 - Y1) ^ 2) /
            Real.cos ((0 - atan2 (Y2 - Y1) (X2 - X1)) / 2)) = _
    rw [if_neg (not_le.mpr h)]
  · intro h
    show (if Y2 - Y1 ≤ 0 then (4294967295 : ℝ)
          else Real.sqrt ((X2 - X1) ^ 2 + (Y2 - Y1) ^ 2) /
            Real.cos ((Real.pi / 2 - atan2 (Y2 - Y1) (X2 - X1)) / 2)) =
      4294967295
    rw [if_pos h]
  · intro h
    show (if Y2 - Y1 ≤ 0 then (4294967295 : ℝ)
          else Real.sqrt ((X2 - X1) ^ 2 + (Y2 - Y1) ^ 2) /
            Real.cos ((Real.pi / 2 - atan2 (Y2 - Y1) (X2 - X1)) / 2)) = _
    rw [if_neg (not_le.mpr h)]
  · intro h
    show (if 0 ≤ X2 - X1 then (4294967295 : ℝ)
          else Real.sqrt ((X2 - X1) ^ 2 + (Y2 - Y1) ^ 2) /
            Real.cos ((Real.pi - |atan2 (Y2 - Y1) (X2 - X1)|) / 2)) =
      4294967295
    rw [if_pos h]
  · intro h
    show (if 0 ≤ X2 - X1 then (4294967295 : ℝ)
          else Real.sqrt ((X2 - X1) ^ 2 + (Y2 - Y1) ^ 2) /
            Real.cos ((Real.pi - |atan2 (Y2 - Y1) (X2 - X1)|) / 2)) = _
    rw [if_neg (not_le.mpr h)]

/-- Witness for `c9_window_distance`: a candidate below the source is
rejected northwards with the sentinel; a candidate above yields the
angular-penalty formula. -/
theorem c9_window_distance_witness :
    (0 ≤ (1 : ℝ) - 0 ∧ GetWindowDistance "north" 0 0 0 1 = 4294967295) ∧
    ((0 : ℝ) - 1 < 0 ∧ GetWindowDistance "north" 0 1 0 0 =
       Real.sqrt (((0 : ℝ) - 0) ^ 2 + ((0 : ℝ) - 1) ^ 2) /
         Real.cos ((-(Real.pi / 2) - atan2 ((0 : ℝ) - 1) ((0 : ℝ) - 0)) / 2)) :=
  ⟨⟨by norm_num, (c9_window_distance 0 0 0 1).1.1 (by norm_num)⟩,
   ⟨by norm_num, (c9_window_distance 0 1 0 0).1.2 (by norm_num)⟩⟩

/-! ### Monocle navigation -/

/-- Index of the node bound to a window id in the monocle list
(`GetNodeWithId` in monocle mode walks the linked list). -/
def monoIdx : List Nat → Nat → Option Nat
  | [], _ => none
  | x :: xs, n => if x = n then some 0 else (monoIdx xs n).map (· + 1)

/-- Modelled from the spec: `GetFirstLeafNode` is defined in `node.cpp`,
which is not among the sources under verification; on the monocle list
(`Left`/`Right` are predecessor/successor) it is the first element. -/
def GetFirstLeafNode (l : List Nat) : Option Nat := l.head?

/-- Modelled from the spec: `GetLastLeafNode` is defined in `node.cpp`,
which is not among the sources under verification; on the monocle list it
is the last element. -/
def GetLastLeafNode (l : List Nat) : Option Nat := l.getLast?

/-- Target selection of the monocle branches of `SwapWindow`
(controller.cpp:482) and `WarpWindow` (controller.cpp:574):
`west`/`prev` takes the predecessor, wrapping to the last leaf at the list
head; `east`/`next` takes the successor, wrapping to the first leaf at the
list end; other directions select nothing. -/
def MonocleTarget (l : List Nat) (src : Nat) (dir : String) : Option Nat :=
  match monoIdx l src with
  | none => none
  | some i =>
    if dir = "west" ∨ dir = "prev" then
      match i with
      | 0 => GetLastLeafNode l
      | j + 1 => l.get? j
    else if dir = "east" ∨ dir = "next" then
      match l.get? (i + 1) with
      | some x => some x
      | none => GetFirstLeafNode l
    else none

/-- Monocle branch of `SwapWindow`: returns whether `SwapNodeIds` runs
(the guard is `ClosestNode && ClosestNode != WindowNode`).  The focus
cycle mode configuration is in scope for every command but never read
here. -/
def SwapWindowMonocle (FocusCycleMode : String) (l : List Nat) (src : Nat)
    (dir : String) : Bool :=
  match MonocleTarget l src dir with
  | some tgt => tgt != src
  | none => false

/-- Monocle branch of `WarpWindow`, textually identical to the one of
`SwapWindow`. -/
def WarpWindowMonocle (FocusCycleMode : String) (l : List Nat) (src : Nat)
    (dir : String) : Bool :=
  match MonocleTarget l src dir with
  | some tgt => tgt != src
  | none => false

lemma monoIdx_lt : ∀ (l : List Nat) (n i : Nat),
    monoIdx l n = some i → i < l.length := by
  intro l
  induction l with
  | nil => intro n i h; exact Option.noConfusion h
  | cons x xs ih =>
      intro n i h
      by_cases hx : x = n
      · rw [monoIdx, if_pos hx] at h
        have : i = 0 := (Option.some.inj h).symm
        subst this
        exact Nat.succ_pos _
      · rw [monoIdx, if_neg hx] at h
        obtain ⟨j, hj, rfl⟩ := Option.map_eq_some'.mp h
        exact Nat.succ_lt_succ (ih n j hj)

/-- C10: in monocle mode the swap/warp target wraps unconditionally —
`east`/`next` from the last list node selects the first leaf and
`west`/`prev` from the first node selects the last leaf — the result does
not depend on the focus-cycle mode (`WarpWindow`'s branch is identical to
`SwapWindow`'s), and the swap is skipped exactly when the chosen target is
the source node itself. -/
theorem c10_monocle_wrap (cm cm' : String) (l : List Nat) (src : Nat) :
    (∀ dir, SwapWindowMonocle cm l src dir = SwapWindowMonocle cm' l src dir ∧
      WarpWindowMonocle cm l src dir = SwapWindowMonocle cm l src dir) ∧
    (monoIdx l src = some (l.length - 1) →
      MonocleTarget l src "east" = GetFirstLeafNode l ∧
      MonocleTarget l src "next" = GetFirstLeafNode l) ∧
    (monoIdx l src = some 0 →
      MonocleTarget l src "west" = GetLastLeafNode l ∧
      MonocleTarget l src "prev" = GetLastLeafNode l) ∧
    (∀ dir tgt, MonocleTarget l src dir = some tgt →
      (SwapWindowMonocle cm l src dir = false ↔ tgt = src)) := by
  have hwrapE : monoIdx l src = some (l.length - 1) →
      ∀ d : String, ¬(d = "west" ∨ d = "prev") → (d = "east" ∨ d = "next") →
      MonocleTarget l src d = GetFirstLeafNode l := by
    intro h d hnw hew
    have hpos : 0 < l.length := by
      have := monoIdx_lt l src (l.length - 1) h
      omega
    have hnone : l.get? (l.length - 1 + 1) = none := by
      have hlen : l.length - 1 + 1 = l.length := by omega
      rw [hlen]
      exact List.get?_eq_none.mpr (le_refl _)
    simp only [MonocleTarget, h]
    rw [if_neg hnw, if_pos hew]
    simp only [hnone]
  have hwrapW : monoIdx l src = some 0 →
      ∀ d : String, (d = "west" ∨ d = "prev") →
      MonocleTarget l src d = GetLastLeafNode l := by
    intro h d hw
    simp only [MonocleTarget, h]
    rw [if_pos hw]
  refine ⟨fun dir => ⟨rfl, rfl⟩, ?_, ?_, ?_⟩
  · intro h
    exact ⟨hwrapE h "east" (by decide) (by decide),
      hwrapE h "next" (by decide) (by decide)⟩
  · intro h
    exact ⟨hwrapW h "west" (by decide), hwrapW h "prev" (by decide)⟩
  · intro dir tgt h
    simp only [SwapWindowMonocle, h]
    constructor
    · intro hb
      by_contra hne
      rw [bne_eq_false_iff_eq] at hb
      exact hne hb
    · intro hb
      rw [bne_eq_false_iff_eq]
      exact hb

/-- Witness for `c10_monocle_wrap` on the list `[1, 2, 3]`. -/
theorem c10_monocle_wrap_witness :
    monoIdx [1, 2, 3] 3 = some ([1, 2, 3].length - 1) ∧
    MonocleTarget [1, 2, 3] 3 "east" = GetFirstLeafNode [1, 2, 3] ∧
    monoIdx [1, 2, 3] 1 = some 0 ∧
    MonocleTarget [1, 2, 3] 1 "west" = GetLastLeafNode [1, 2, 3] ∧
    MonocleTarget [1, 2, 3] 2 "east" = some 3 ∧
    (SwapWindowMonocle "none" [1, 2, 3] 2 "east" = false ↔ 3 = 2) :=
  ⟨rfl,
   ((c10_monocle_wrap "none" "all" [1, 2, 3] 3).2.1 rfl).1,
   rfl,
   ((c10_monocle_wrap "none" "all" [1, 2, 3] 1).2.2.1 rfl).1,
   rfl,
   (c10_monocle_wrap "none" "all" [1, 2, 3] 2).2.2.2 "east" 3 rfl⟩

end Chunkwm
